import Mathlib

/-!
Shallow embedding of `cherry/experience_replay.py`: the `Transition` record
type and the `ExperienceReplay` buffer with its storage, batched field
access, concatenation, sampling, flattening and persistence operations.

Python exceptions are modelled by the `PyErr` type and fallible operations
return `Except PyErr _`.  Backend tensors are modelled by their shape and a
flat list of integer entries; device moves and precision casts (backend
concerns that are out of scope for the core) do not change this modelled
content.  Randomness is modelled by passing the outcomes of the successive
`random.randint` calls explicitly: a `choice : Nat` is reduced modulo the
size of the requested inclusive range, so quantifying over all choices
ranges over exactly the outcomes the Python code can draw.
-/

/-- Kinds of Python exceptions the embedded code can raise. -/
inductive PyErr where
  | valueError
  | assertionError
  | attributeError
  | indexError
  | typeError
  | runtimeError
  | nameError
deriving DecidableEq, Repr

instance {ε : Type u} {α : Type v} [DecidableEq ε] [DecidableEq α] : DecidableEq (Except ε α) := fun a b =>
  match a, b with
  | .error x, .error y =>
    if h : x = y then .isTrue (by rw [h]) else .isFalse (fun hc => h (Except.error.inj hc))
  | .ok x, .ok y =>
    if h : x = y then .isTrue (by rw [h]) else .isFalse (fun hc => h (Except.ok.inj hc))
  | .error _, .ok _ => .isFalse (fun hc => Except.noConfusion hc)
  | .ok _, .error _ => .isFalse (fun hc => Except.noConfusion hc)

/-- A backend array value: its shape and its entries in row-major order.
Device placement and dtype are backend concerns (out of scope); moving or
casting a tensor does not change this modelled content. -/
structure Tensor where
  shape : List Nat
  data : List Int
deriving DecidableEq, Repr

/-- A field value of a record: either a backend tensor or an opaque
(non-tensorable) Python object, identified by a code. -/
inductive Val where
  | tens (t : Tensor)
  | obj (code : Nat)
deriving DecidableEq, Repr

/-- A scalar-per-record tensor holding one entry (shape `[1]`). -/
def vScalar (x : Int) : Val := Val.tens ⟨[1], [x]⟩

/-- The five core field names of a `Transition`, in construction order
(line 54 of the source). -/
def coreNames : List String := ["state", "action", "reward", "next_state", "done"]

/-- `Transition`: one (s, a, r, s', d) record.  `fields` is the ordered
association of field names to values, mirroring `_fields` together with the
attribute values; `device` mirrors the `device` attribute (a reserved name,
kept outside the field list). -/
structure Transition where
  fields : List (String × Val)
  device : Option String
deriving DecidableEq, Repr

/-- `Transition.__init__` (lines 46-62): the five core fields in order,
followed by the `infos` entries in the order supplied. -/
def Transition.construct (state action reward next_state done : Val)
    (device : Option String) (infos : List (String × Val)) : Transition :=
  { fields := [("state", state), ("action", action), ("reward", reward),
               ("next_state", next_state), ("done", done)] ++ infos
    device := device }

/-- `Transition.__setattr__` (lines 64-69): assigning a non-reserved name
appends it to `_fields` when it is new, otherwise overwrites the value in
place; the reserved names `device` and `_fields` never touch the field
list (the `device` tag is modelled separately). -/
def Transition.setattr (t : Transition) (name : String) (v : Val) : Transition :=
  if name = "device" ∨ name = "_fields" then t
  else if (t.fields.map Prod.fst).contains name then
    { t with fields := t.fields.map (fun p => if p.1 = name then (p.1, v) else p) }
  else { t with fields := t.fields ++ [(name, v)] }

/-- The per-field transformation of `Transition._apply` (lines 91-96):
`fn` is applied to tensor values, other values pass through unchanged. -/
def mapValFn (fn : Tensor → Tensor) (v : Val) : Val :=
  match v with
  | .tens t => .tens (fn t)
  | .obj o => .obj o

/-- `Transition(**new_transition)` as used by `_apply` (line 97): the five
core values are looked up by name and the remaining entries become the
`infos`, so the rebuilt record lists the core fields first.  `none` models
the `TypeError` raised when a core keyword is missing. -/
def Transition.rebuild (fields : List (String × Val)) (device : Option String) : Option Transition :=
  match fields.lookup "state", fields.lookup "action", fields.lookup "reward",
        fields.lookup "next_state", fields.lookup "done" with
  | some s, some a, some r, some ns, some d =>
    some (Transition.construct s a r ns d device
      (fields.filter (fun p => !(coreNames.contains p.1))))
  | _, _, _, _, _ => none

/-- `Transition._apply(fn, device)` (lines 87-97): apply `fn` to every
tensor field, keep other fields, and build a new `Transition` whose device
tag is `device` (falling back to the current tag when `device is None`).
The original record is not mutated: a fresh record is returned. -/
def Transition.applyFn (t : Transition) (fn : Tensor → Tensor) (device : Option String) : Option Transition :=
  Transition.rebuild (t.fields.map (fun p => (p.1, mapValFn fn p.2)))
    (match device with
     | none => t.device
     | some d => some d)

/-- `Transition.to(device)` (lines 99-123): the per-tensor function moves
the tensor to the parsed device (and casts floating-point tensors), which
leaves the modelled shape-and-entries content unchanged, so it acts as the
identity; the device tag becomes the parsed device when one is given. -/
def Transition.toDevice (t : Transition) (device : Option String) : Option Transition :=
  t.applyFn id device

/-- `Transition.cpu` (lines 81-82). -/
def Transition.cpuT (t : Transition) : Option Transition :=
  t.toDevice (some "cpu")

/-- `Transition.cuda(device)` (lines 84-85). -/
def Transition.cudaT (t : Transition) (device : Nat) : Option Transition :=
  t.toDevice (some ("cuda:" ++ toString device))

/-- `Transition.half` (lines 125-126): casts floating-point tensors only;
on the modelled integer content the cast is the identity and no device is
passed, so the tag falls back to the current one. -/
def Transition.halfT (t : Transition) : Option Transition :=
  t.applyFn id none

/-- `Transition.double` (lines 128-129); same modelling as `half`. -/
def Transition.doubleT (t : Transition) : Option Transition :=
  t.applyFn id none

/-- Well-formedness of a record as guaranteed by the constructor: the five
core fields come first, the remaining field names avoid the core names,
and no field name is duplicated (so the field list behaves like the
Python attribute dictionary). -/
def Transition.WF (t : Transition) : Prop :=
  (t.fields.map Prod.fst).take 5 = coreNames
    ∧ 5 ≤ t.fields.length
    ∧ (∀ p ∈ t.fields.drop 5, ¬ p.1 ∈ coreNames)
    ∧ (t.fields.map Prod.fst).Nodup

instance (t : Transition) : Decidable t.WF := by
  unfold Transition.WF; infer_instance

/-- `ExperienceReplay` (lines 187-193): an ordered storage of transitions,
a device tag and the `vectorized` flag. -/
structure ExperienceReplay where
  storage : List Transition
  device : Option String
  vectorized : Bool
deriving DecidableEq, Repr

/-- `ExperienceReplay.__add__` (lines 222-230): asserts that the
`vectorized` flags agree (`AssertionError` otherwise) and returns a new
replay over the concatenated storages, keeping the left device tag. -/
def ExperienceReplay.add (a b : ExperienceReplay) : Except PyErr ExperienceReplay :=
  if a.vectorized = b.vectorized then
    .ok ⟨a.storage ++ b.storage, a.device, a.vectorized⟩
  else .error .assertionError

/-- `ExperienceReplay.__iadd__` (lines 232-234): extends the storage in
place with the other replay's transitions.  No flag check is performed. -/
def ExperienceReplay.iadd (a b : ExperienceReplay) : ExperienceReplay :=
  { a with storage := a.storage ++ b.storage }

/-- Modelled from the spec: `_min_size` (imported from `cherry._utils`,
not under `src/`): per §4.2 the stacked result preserves non-scalar
per-record field shapes, and scalar fields get a singleton shape. -/
def minSizeT (t : Tensor) : List Nat :=
  if t.shape = [] then [1] else t.shape

/-- Modelled from the spec: the backend's `concat(list_of_arrays, axis=0)`
(§6).  Concatenation requires a non-empty list of tensors of positive rank
agreeing on the trailing dimensions; the leading dimensions add up and the
entries are concatenated. -/
def catDim0 (ts : List Tensor) : Except PyErr Tensor :=
  match ts with
  | [] => .error .runtimeError
  | t0 :: rest =>
    match t0.shape with
    | [] => .error .runtimeError
    | _ :: tail0 =>
      if rest.all (fun t => decide (t.shape ≠ []) && decide (t.shape.tail = tail0)) then
        .ok ⟨(ts.map (fun t => t.shape.headD 0)).sum :: tail0, (ts.map Tensor.data).flatten⟩
      else .error .runtimeError

/-- Modelled from the spec: the backend's `reshape` (§6) as used by
`.view(len, *true_size)`: the element count must match the new shape. -/
def viewT (t : Tensor) (newShape : List Nat) : Except PyErr Tensor :=
  if newShape.prod = t.data.length then .ok ⟨newShape, t.data⟩
  else .error .runtimeError

/-- `ExperienceReplay._access_property(name)` (lines 195-202): gather the
field from every stored record (`AttributeError` if any record lacks it),
then evaluate `_min_size(values[0])` — on an empty storage this raises the
`IndexError` of `values[0]` — and finally concatenate and reshape to
`(len(values), *true_size)`. -/
def ExperienceReplay.accessProperty (r : ExperienceReplay) (name : String) : Except PyErr Tensor := do
  let values ← match r.storage.mapM (fun t => t.fields.lookup name) with
               | none => Except.error PyErr.attributeError
               | some vs => Except.ok vs
  match values with
  | [] => Except.error PyErr.indexError
  | v0 :: _ =>
    match v0 with
    | .obj _ => Except.error PyErr.typeError
    | .tens t0 => do
      let trueSize := minSizeT t0
      let ts ← values.mapM (fun v =>
        match v with
        | Val.tens t => Except.ok t
        | Val.obj _ => Except.error PyErr.typeError)
      let c ← catDim0 ts
      viewT c (values.length :: trueSize)

/-- Python's `random.randint(a, b)`: uniform over the inclusive range
`[a, b]`, raising `ValueError` when the range is empty (`b < a`).  The
`choice` parameter selects the outcome: it is reduced modulo the range
size, so every outcome in `[a, b]` is reached by some choice and no other
outcome is possible. -/
def randint (a b : Int) (choice : Nat) : Except PyErr Int :=
  if b < a then .error .valueError
  else .ok (a + (choice : Int) % (b - a + 1))

/-- Python list indexing `l[i]` for the non-negative indices produced by
the sampling code: `IndexError` out of bounds. -/
def pyIndex (l : List α) (i : Nat) : Except PyErr α :=
  match l.get? i with
  | some x => .ok x
  | none => .error .indexError

/-- Python's `bool(d)` on a tensor row: defined only for a single-element
row (`RuntimeError` otherwise), true iff the element is non-zero. -/
def pyBool (row : List Int) : Except PyErr Bool :=
  match row with
  | [x] => .ok (x != 0)
  | _ => .error .runtimeError

/-- Iterating a tensor yields its rows along the leading axis; row `i`
holds the entries `[i * rowLen, (i+1) * rowLen)` where `rowLen` is the
product of the trailing dimensions. -/
def tensorRows (t : Tensor) : List (List Int) :=
  let rowLen := t.shape.tail.prod
  (List.range (t.shape.headD 0)).map (fun i => (t.data.drop (i * rowLen)).take rowLen)

/-- The scan of lines 367-374: walk the indices of `l` (descending),
counting terminal rows, and return the index at which the count reaches
`endv`.  Falling off the loop leaves `end_idx` unbound, which the source
then dereferences: `NameError`. -/
def findEndIdxAux (rows : List (List Int)) (l : List Nat) (endv count : Int) : Except PyErr Nat :=
  match l with
  | [] => .error .nameError
  | idx :: rest =>
    match pyBool (rows.getD idx []) with
    | .error e => .error e
    | .ok true =>
      if endv ≤ count then .ok idx
      else findEndIdxAux rows rest endv (count + 1)
    | .ok false => findEndIdxAux rows rest endv count

/-- The index-filling loop of lines 376-383: starting from the collected
`[end_idx]`, walk the indices below `end_idx` (descending); a terminal row
increments the count and, once the count reaches `size`, stops *without*
inserting that boundary; every other visited index is inserted at the
front. -/
def fillIndicesAux (rows : List (List Int)) (l : List Nat) (size count : Int)
    (acc : List Nat) : Except PyErr (List Nat) :=
  match l with
  | [] => .ok acc
  | idx :: rest =>
    match pyBool (rows.getD idx []) with
    | .error e => .error e
    | .ok true =>
      if size ≤ count + 1 then .ok acc
      else fillIndicesAux rows rest size (count + 1) (idx :: acc)
    | .ok false => fillIndicesAux rows rest size count (idx :: acc)

/-- The contiguous-episode branch of `sample` (lines 363-383 plus the
materialization of lines 392-394): count the completed episodes from the
concatenated `done` column, draw `end` in `[size-1, num_episodes-size]`,
scan backwards for the `end`-th-from-last terminal index, fill the index
range below it, and build the resulting replay (device tag unset). -/
def ExperienceReplay.sampleEpisodesContiguous (r : ExperienceReplay) (size : Int)
    (choice : Nat) : Except PyErr ExperienceReplay := do
  let dones ← r.accessProperty "done"
  let numEpisodes : Int := dones.data.sum
  let endv ← randint (size - 1) (numEpisodes - size) choice
  let rows := tensorRows dones
  let endIdx ← findEndIdxAux rows (List.range rows.length).reverse endv 0
  let indices ← fillIndicesAux rows (List.range endIdx).reverse size 0 [endIdx]
  let st ← indices.mapM (fun i => pyIndex r.storage i)
  .ok ⟨st, none, r.vectorized⟩

/-- `ExperienceReplay.sample(size, contiguous, episodes)` (lines 337-394).
`rng` supplies the outcomes of the successive `random.randint` calls: the
single draw of the contiguous branches is `rng.headD 0`, and the i-th of
the independent draws of the with-replacement branches is `rng.getD i 0`.
An empty storage or a non-positive size returns an empty replay at once;
episode sampling asserts the replay is not vectorized; `size > 1`
non-contiguous episode sampling draws `size` single episodes and sums them
with `__add__` starting from a fresh replay. -/
def ExperienceReplay.sample (r : ExperienceReplay) (size : Int)
    (contiguous episodes : Bool) (rng : List Nat) : Except PyErr ExperienceReplay :=
  if r.storage.length < 1 ∨ size < 1 then .ok ⟨[], none, r.vectorized⟩
  else if episodes then
    if r.vectorized then .error .assertionError
    else if 1 < size ∧ contiguous = false then do
      let singles ← (List.range size.toNat).mapM
        (fun i => r.sampleEpisodesContiguous 1 (rng.getD i 0))
      singles.foldlM ExperienceReplay.add ⟨[], none, false⟩
    else r.sampleEpisodesContiguous size (rng.headD 0)
  else
    let length : Int := (r.storage.length : Int) - 1
    if contiguous then do
      let start ← randint 0 (length - size) (rng.headD 0)
      let st ← (List.range' start.toNat size.toNat).mapM (fun i => pyIndex r.storage i)
      .ok ⟨st, none, r.vectorized⟩
    else do
      let idxs ← (List.range size.toNat).mapM
        (fun i => (randint 0 length (rng.getD i 0)).map Int.toNat)
      let st ← idxs.mapM (fun i => pyIndex r.storage i)
      .ok ⟨st, none, r.vectorized⟩

/-- `ExperienceReplay.empty` (lines 396-407): drop the storage, keep the
device tag and the `vectorized` flag. -/
def ExperienceReplay.emptyOut (r : ExperienceReplay) : ExperienceReplay :=
  { r with storage := [] }

/-- Modelled from the spec: the file system seen by `torch.save` and
`torch.load` (external backend, §6): a map from paths to the serialized
record sequences stored there. -/
def FileSystem := String → Option (List Transition)

/-- Modelled from the spec: `torch.save(obj, path)` stores the object at
the path as an opaque blob (§6: only the round-trip contract matters). -/
def thSave (fs : FileSystem) (path : String) (obj : List Transition) : FileSystem :=
  fun p => if p = path then some obj else fs p

/-- Modelled from the spec: `torch.load(path)` retrieves the blob stored
at the path, failing when there is none. -/
def thLoad (fs : FileSystem) (path : String) : Except PyErr (List Transition) :=
  match fs path with
  | some o => .ok o
  | none => .error .valueError

/-- `ExperienceReplay.save(path)` (lines 249-264): serializes `_storage`. -/
def ExperienceReplay.save (r : ExperienceReplay) (fs : FileSystem) (path : String) : FileSystem :=
  thSave fs path r.storage

/-- `ExperienceReplay.load(path)` (lines 266-281): replaces `_storage`
with the deserialized content; device tag and flag are untouched. -/
def ExperienceReplay.load (r : ExperienceReplay) (fs : FileSystem) (path : String) :
    Except PyErr ExperienceReplay :=
  (thLoad fs path).map (fun st => { r with storage := st })

/-- Modelled from the spec: `_istensorable` (imported from
`cherry._utils`, not under `src/`): per §6 a predicate for
array-convertible values; tensors are, opaque objects are not. -/
def istensorable (v : Val) : Bool :=
  match v with
  | .tens _ => true
  | .obj _ => false

/-- Modelled from the spec: `ch.totensor` (not under `src/`): per §6 the
backend converts scalar/list/array inputs to arrays; on an already-array
value it is the identity, and on an opaque or missing (`None`) value it
fails. -/
def totensor (v : Option Val) : Except PyErr Val :=
  match v with
  | some (.tens t) => .ok (.tens t)
  | _ => .error .typeError

/-- `t.unsqueeze(0)`: re-adds a singleton leading axis (line 437). -/
def unsqueeze0 (v : Val) : Val :=
  match v with
  | .tens t => .tens ⟨1 :: t.shape, t.data⟩
  | .obj o => .obj o

/-- Tensor indexing `v[i]` along the leading axis (line 434): defined for
tensors of positive rank with `i` below the leading dimension; the result
drops that axis.  Indexing an opaque value fails. -/
def valIndex (v : Val) (i : Nat) : Except PyErr Val :=
  match v with
  | .obj _ => .error .typeError
  | .tens t =>
    match t.shape with
    | [] => .error .indexError
    | n :: rest =>
      if i < n then .ok (.tens ⟨rest, (t.data.drop (i * rest.prod)).take rest.prod⟩)
      else .error .indexError

/-- Modelled from the spec: the backend's `reshape(num_envs, -1)` (§6) as
used by the vectorized branch of `append` (lines 322-326). -/
def reshapeRows (v : Val) (numEnvs : Nat) : Except PyErr Val :=
  match v with
  | .obj _ => .error .typeError
  | .tens t =>
    if numEnvs ≠ 0 ∧ t.data.length % numEnvs = 0 then
      .ok (.tens ⟨[numEnvs, t.data.length / numEnvs], t.data⟩)
    else .error .runtimeError

/-- `ExperienceReplay.append` (lines 283-335): convert the five core
inputs through the backend (the guarded conversion of tensorable info
values is the identity on model values, so `infos` passes through), apply
the vectorized reshape when the flag is set, construct the record and
store it after `.to(self.device)`. -/
def ExperienceReplay.append (r : ExperienceReplay)
    (state action reward next_state done : Option Val)
    (infos : List (String × Val)) : Except PyErr ExperienceReplay := do
  let st ← totensor state
  let ac ← totensor action
  let rw ← totensor reward
  let ns ← totensor next_state
  let dn ← totensor done
  let core ←
    if r.vectorized then
      match st with
      | .obj _ => Except.error PyErr.typeError
      | .tens t =>
        match t.shape with
        | [] => Except.error PyErr.indexError
        | numEnvs :: _ => do
          let ac2 ← reshapeRows ac numEnvs
          let rw2 ← reshapeRows rw numEnvs
          let dn2 ← reshapeRows dn numEnvs
          Except.ok (ac2, rw2, dn2)
    else Except.ok (ac, rw, dn)
  let sars := Transition.construct st core.1 core.2.1 ns core.2.2 none infos
  match sars.applyFn id r.device with
  | some s2 => .ok { r with storage := r.storage ++ [s2] }
  | none => .error .typeError

/-- One iteration of the inner loop of `flatten` (lines 432-438): index
every field of the record at timestep `i` along the leading axis, re-add
the singleton axis to tensorable values, and append the resulting
single-timestep record to the accumulated replay, binding the core
keywords by name and passing the remaining entries as infos. -/
def flattenOneIdx (acc2 : ExperienceReplay) (sars : Transition) (i : Nat) :
    Except PyErr ExperienceReplay := do
  let entries ← sars.fields.mapM (fun p => do
    let v ← valIndex p.2 i
    pure (p.1, if istensorable v then unsqueeze0 v else v))
  acc2.append (entries.lookup "state") (entries.lookup "action")
    (entries.lookup "reward") (entries.lookup "next_state")
    (entries.lookup "done")
    (entries.filter (fun p => !(coreNames.contains p.1)))

/-- The per-record loop of `flatten` (lines 431-438): determine the
timestep count from `done.shape[0]` and append the single-timestep record
for each index. -/
def flattenStep (acc : ExperienceReplay) (sars : Transition) : Except PyErr ExperienceReplay := do
  let doneV ← match sars.fields.lookup "done" with
              | some v => Except.ok v
              | none => Except.error PyErr.attributeError
  let m ← match doneV with
          | .tens t =>
            match t.shape with
            | [] => Except.error PyErr.indexError
            | n :: _ => Except.ok n
          | .obj _ => Except.error PyErr.attributeError
  (List.range m).foldlM (fun acc2 i => flattenOneIdx acc2 sars i) acc

/-- `ExperienceReplay.flatten` (lines 409-439): the very same replay when
not vectorized; otherwise each stored record is split into its
single-timestep records, collected into a fresh non-vectorized replay. -/
def ExperienceReplay.flatten (r : ExperienceReplay) : Except PyErr ExperienceReplay :=
  if r.vectorized = false then .ok r
  else r.storage.foldlM flattenStep ⟨[], none, false⟩

/-- The integer a boolean `done` flag is stored as. -/
def boolInt (b : Bool) : Int := if b then 1 else 0

/-- The start of the episode that ends at terminal index `e`: one past
the last terminal index strictly below `e`, or `0` when there is none.
This is the statement-side rendering of "just after the previous terminal
Record (or index 0)" used to state the episode-sampling claim. -/
def prevStart (flags : List Bool) (e : Nat) : Nat :=
  (List.range e).foldl (fun acc j => if flags.getD j false then j + 1 else acc) 0

/-- A record of a vectorized replay with environment count `E`: well
formed, and every field is a tensor whose leading axis is `E` (§3's
vectorized-Buffer invariant). -/
def VecRecord (t : Transition) (E : Nat) : Prop :=
  t.WF ∧ ∀ p ∈ t.fields, ∃ sh dat, p.2 = Val.tens ⟨E :: sh, dat⟩

instance (t : Transition) (E : Nat) : Decidable (VecRecord t E) :=
  decidable_of_iff
    (t.WF ∧ ∀ p ∈ t.fields,
      (match p.2 with
       | Val.tens u => u.shape.take 1 == [E]
       | Val.obj _ => false) = true)
    (by
      constructor
      · rintro ⟨hwf, h⟩
        refine ⟨hwf, fun p hp => ?_⟩
        have hb := h p hp
        cases hv : p.2 with
        | obj o => rw [hv] at hb; simp at hb
        | tens u =>
          rw [hv] at hb
          simp only [beq_iff_eq] at hb
          cases hsh : u.shape with
          | nil => rw [hsh] at hb; simp at hb
          | cons n rest =>
            rw [hsh] at hb
            simp at hb
            exact ⟨rest, u.data, by rw [← hb, ← hsh]⟩
      · rintro ⟨hwf, h⟩
        refine ⟨hwf, fun p hp => ?_⟩
        obtain ⟨sh, dat, hv⟩ := h p hp
        rw [hv]
        simp)

/-- Every field of every record carries a singleton leading axis. -/
def SingletonLead (r : ExperienceReplay) : Prop :=
  ∀ t ∈ r.storage, ∀ p ∈ t.fields, ∃ sh dat, p.2 = Val.tens ⟨1 :: sh, dat⟩

/-- A concrete scalar record whose `done` flag stores `d`. -/
def trEx (d : Int) : Transition :=
  Transition.construct (vScalar 10) (vScalar 20) (vScalar 30) (vScalar 40) (vScalar d) none []

/-- A concrete three-record non-vectorized replay. -/
def rep3 : ExperienceReplay := ⟨[trEx 0, trEx 0, trEx 1], none, false⟩

/-- A concrete five-record replay with terminal records at indices 2 and 4. -/
def rep5 : ExperienceReplay := ⟨[trEx 0, trEx 0, trEx 1, trEx 0, trEx 1], none, false⟩

/-- A concrete vectorized record with environment count 2. -/
def vtEx : Transition :=
  Transition.construct (Val.tens ⟨[2, 3], [1, 2, 3, 4, 5, 6]⟩) (Val.tens ⟨[2, 1], [7, 8]⟩)
    (Val.tens ⟨[2, 1], [9, 10]⟩) (Val.tens ⟨[2, 3], [11, 12, 13, 14, 15, 16]⟩)
    (Val.tens ⟨[2, 1], [0, 1]⟩) none [("extra", Val.tens ⟨[2], [21, 22]⟩)]

/-- A concrete vectorized replay of two records with environment count 2. -/
def vrepEx : ExperienceReplay := ⟨[vtEx, vtEx], none, true⟩

theorem boolInt_bne (b : Bool) : (boolInt b != 0) = b := by
  cases b <;> rfl

theorem mapValFn_id (v : Val) : mapValFn id v = v := by
  cases v <;> rfl

theorem pyIndex_ok {α : Type u} {l : List α} {i : Nat} (h : i < l.length) :
    pyIndex l i = .ok (l.get ⟨i, h⟩) := by
  unfold pyIndex
  rw [List.get?_eq_get h]

theorem pyIndex_mem {α : Type u} {l : List α} {i : Nat} {x : α}
    (h : pyIndex l i = .ok x) : x ∈ l ∧ l.get? i = some x := by
  unfold pyIndex at h
  cases hg : l.get? i with
  | none => rw [hg] at h; exact absurd h (by simp)
  | some y =>
    rw [hg] at h
    have hy : y = x := by injection h
    subst hy
    exact ⟨List.get?_mem hg, rfl⟩

theorem except_mapM_ok_map {α : Type u} {β : Type v} {f : α → Except PyErr β} {g : α → β} :
    ∀ {l : List α}, (∀ x ∈ l, f x = .ok (g x)) → l.mapM f = .ok (l.map g) := by
  intro l h
  induction l with
  | nil => rfl
  | cons a l ih =>
    rw [List.mapM_cons, h a (by simp), ih (fun x hx => h x (by simp [hx]))]
    rfl

theorem except_mapM_ok_exists {α : Type u} {β : Type v} {f : α → Except PyErr β} :
    ∀ {l : List α}, (∀ x ∈ l, ∃ b, f x = .ok b) →
      ∃ bs, l.mapM f = .ok bs ∧ bs.length = l.length ∧ ∀ b ∈ bs, ∃ x, x ∈ l ∧ f x = .ok b := by
  intro l h
  induction l with
  | nil => exact ⟨[], rfl, rfl, by simp⟩
  | cons a l ih =>
    obtain ⟨b, hb⟩ := h a (by simp)
    obtain ⟨bs, hbs, hlen, hmem⟩ := ih (fun x hx => h x (by simp [hx]))
    refine ⟨b :: bs, ?_, by simp [hlen], ?_⟩
    · rw [List.mapM_cons, hb, hbs]; rfl
    · intro c hc
      rcases List.mem_cons.mp hc with hc | hc
      · exact ⟨a, by simp, by rw [hc]; exact hb⟩
      · obtain ⟨x, hx, hfx⟩ := hmem c hc
        exact ⟨x, by simp [hx], hfx⟩

theorem mapM_pyIndex_range' {α : Type u} {l : List α} :
    ∀ (m s : Nat), s + m ≤ l.length →
      (List.range' s m).mapM (fun i => pyIndex l i) = .ok ((l.drop s).take m) := by
  intro m
  induction m with
  | zero => intro s _; rfl
  | succ m ih =>
    intro s hs
    have hslt : s < l.length := by omega
    rw [List.range'_succ, List.mapM_cons, pyIndex_ok hslt, ih (s + 1) (by omega),
        List.drop_eq_getElem_cons hslt, List.take_succ_cons]
    rfl

theorem mapM_pyIndex_pointwise {α : Type u} {l : List α} :
    ∀ (idxs : List Nat), (∀ j ∈ idxs, j < l.length) →
      ∃ st, idxs.mapM (fun i => pyIndex l i) = .ok st ∧ st.length = idxs.length ∧
        ∀ i, st.get? i = (idxs.get? i).bind l.get? := by
  intro idxs h
  induction idxs with
  | nil => exact ⟨[], rfl, rfl, by intro i; simp⟩
  | cons j rest ih =>
    have hj : j < l.length := h j (by simp)
    obtain ⟨st, hst, hlen, hpt⟩ := ih (fun x hx => h x (by simp [hx]))
    refine ⟨l.get ⟨j, hj⟩ :: st, ?_, by simp [hlen], ?_⟩
    · rw [List.mapM_cons, pyIndex_ok hj, hst]; rfl
    · intro i
      cases i with
      | zero => simp [List.get?_eq_get hj]
      | succ i => simpa using hpt i

theorem option_mapM_eq_none {α : Type u} {β : Type v} {f : α → Option β} :
    ∀ {l : List α} {x : α}, x ∈ l → f x = none → l.mapM f = none := by
  intro l
  induction l with
  | nil => intro x hx; simp at hx
  | cons a l ih =>
    intro x hx hfx
    rw [List.mapM_cons]
    rcases List.mem_cons.mp hx with hx | hx
    · rw [hx] at hfx; rw [hfx]; rfl
    · cases hfa : f a with
      | none => rfl
      | some b => rw [ih hx hfx]; rfl

theorem option_mapM_of_map_eq {α : Type u} {β : Type v} {f : α → Option β} :
    ∀ {l : List α} {bs : List β}, l.map f = bs.map some → l.mapM f = some bs := by
  intro l
  induction l with
  | nil =>
    intro bs h
    have : bs = [] := by
      cases bs with
      | nil => rfl
      | cons b bs => simp at h
    subst this; rfl
  | cons a l ih =>
    intro bs h
    cases bs with
    | nil => simp at h
    | cons b bs =>
      simp only [List.map_cons, List.cons.injEq] at h
      rw [List.mapM_cons, h.1, ih h.2]
      rfl

theorem randint_error {a b : Int} (c : Nat) (h : b < a) :
    randint a b c = .error .valueError := by
  simp [randint, h]

theorem randint_eq_ok {a b : Int} (c : Nat) (h : a ≤ b) :
    randint a b c = .ok (a + (c : Int) % (b - a + 1)) := by
  simp [randint, show ¬ b < a from not_lt.mpr h]

theorem randint_bounds {a b : Int} (c : Nat) (h : a ≤ b) :
    a ≤ a + (c : Int) % (b - a + 1) ∧ a + (c : Int) % (b - a + 1) ≤ b := by
  have h1 : (0 : Int) < b - a + 1 := by omega
  have h2 : (0 : Int) ≤ (c : Int) % (b - a + 1) := Int.emod_nonneg _ (by omega)
  have h3 : (c : Int) % (b - a + 1) < b - a + 1 := Int.emod_lt_of_pos _ h1
  omega

theorem randint_exact {a b v : Int} (h1 : a ≤ v) (h2 : v ≤ b) :
    randint a b ((v - a).toNat) = .ok v := by
  have hc : (((v - a).toNat : Nat) : Int) = v - a := Int.toNat_of_nonneg (by omega)
  have h4 : (v - a) % (b - a + 1) = v - a := Int.emod_eq_of_lt (by omega) (by omega)
  rw [randint_eq_ok _ (le_trans h1 h2), hc, h4]
  congr 1
  omega

/-- C4: for every buffer and every size, if the buffer is empty or the
size is below one, `sample` returns an empty Buffer (length 0)
immediately without raising any error, for all combinations of the
`contiguous` and `episodes` flags. -/
theorem sample_empty_returns_empty (r : ExperienceReplay) (size : Int)
    (contiguous episodes : Bool) (rng : List Nat)
    (h : r.storage = [] ∨ size < 1) :
    r.sample size contiguous episodes rng = .ok ⟨[], none, r.vectorized⟩ := by
  have hc : r.storage.length < 1 ∨ size < 1 := by
    rcases h with h | h
    · left; simp [h]
    · right; exact h
  unfold ExperienceReplay.sample
  rw [if_pos hc]

theorem sample_empty_returns_empty_witness :
    ExperienceReplay.sample ⟨[], none, true⟩ 3 true false [7] = .ok ⟨[], none, true⟩
      ∧ rep3.sample (-2) false true [] = .ok ⟨[], none, false⟩ := by
  constructor
  · exact sample_empty_returns_empty ⟨[], none, true⟩ 3 true false [7] (Or.inl rfl)
  · exact sample_empty_returns_empty rep3 (-2) false true [] (Or.inr (by decide))

/-- C5 amended: in-place extension (`__iadd__`) does *not* check the
`vectorized` flags: it appends the other replay's records to `self` even
when the flags differ, in order and without any error; only out-of-place
concatenation (`__add__`) fails with the vectorized-mismatch assertion
when the flags differ (and appends in order when they match). -/
theorem iadd_appends_without_flag_check (a b : ExperienceReplay) :
    a.iadd b = ⟨a.storage ++ b.storage, a.device, a.vectorized⟩
      ∧ a.add b = (if a.vectorized = b.vectorized
          then .ok ⟨a.storage ++ b.storage, a.device, a.vectorized⟩
          else .error .assertionError) := by
  exact ⟨rfl, rfl⟩

/-- C5 counterexample: extending a non-vectorized replay in place with a
vectorized one succeeds and appends the record, while the out-of-place
concatenation of the very same replays raises the mismatch assertion. -/
theorem iadd_mismatch_counterexample :
    ExperienceReplay.iadd ⟨[trEx 0], none, false⟩ ⟨[trEx 1], none, true⟩
        = ⟨[trEx 0, trEx 1], none, false⟩
      ∧ ExperienceReplay.add ⟨[trEx 0], none, false⟩ ⟨[trEx 1], none, true⟩
        = .error .assertionError := by
  exact ⟨rfl, rfl⟩

/-- C9: saving a buffer to a path and loading that path into a buffer
yields exactly the saved record sequence, with `load` replacing the
target's record sequence (its device tag and flag untouched). -/
theorem save_load_roundtrip (x target : ExperienceReplay) (fs : FileSystem) (path : String) :
    target.load (x.save fs path) path = .ok ⟨x.storage, target.device, target.vectorized⟩ := by
  unfold ExperienceReplay.load ExperienceReplay.save thLoad thSave
  rw [if_pos rfl]
  rfl

/-- C6 amended: on a buffer with zero records, batched field access
reaches the `values[0]` expression and fails with its `IndexError` (there
is no explicit empty-buffer error kind in the code); on a buffer where
some record lacks the field it fails with the `AttributeError` that plays
the role of `FieldNotFound`. -/
theorem accessProperty_failure_modes (r : ExperienceReplay) (name : String) :
    (r.storage = [] → r.accessProperty name = .error .indexError)
      ∧ (∀ t, t ∈ r.storage → t.fields.lookup name = none →
          r.accessProperty name = .error .attributeError) := by
  constructor
  · intro h
    unfold ExperienceReplay.accessProperty
    rw [h]
    rfl
  · intro t ht hnone
    unfold ExperienceReplay.accessProperty
    rw [option_mapM_eq_none ht hnone]
    rfl

/-- C6 counterexample: batched access of `state` on an empty buffer fails
with the `IndexError` of `values[0]`, not with a dedicated empty-buffer
error. -/
theorem accessProperty_empty_counterexample :
    ExperienceReplay.accessProperty ⟨[], none, false⟩ "state" = .error .indexError := by
  rfl

theorem accessProperty_failure_modes_witness :
    ExperienceReplay.accessProperty ⟨[trEx 0], none, false⟩ "log_prob" = .error .attributeError
      ∧ ExperienceReplay.accessProperty ⟨[], none, true⟩ "action" = .error .indexError := by
  constructor
  · exact (accessProperty_failure_modes ⟨[trEx 0], none, false⟩ "log_prob").2 (trEx 0)
      (by simp) (by decide)
  · exact (accessProperty_failure_modes ⟨[], none, true⟩ "action").1 rfl

theorem WF_shape {t : Transition} (h : t.WF) :
    ∃ s a rw ns d rest,
      t.fields = [("state", s), ("action", a), ("reward", rw),
          ("next_state", ns), ("done", d)] ++ rest
        ∧ ∀ p ∈ rest, ¬ p.1 ∈ coreNames := by
  obtain ⟨fs, dev⟩ := t
  obtain ⟨h1, h2, h3, _⟩ := h
  rcases fs with _ | ⟨⟨n1, v1⟩, _ | ⟨⟨n2, v2⟩, _ | ⟨⟨n3, v3⟩, _ | ⟨⟨n4, v4⟩, _ | ⟨⟨n5, v5⟩, rest⟩⟩⟩⟩⟩
  · simp at h2
  · simp at h2
  · simp at h2
  · simp at h2
  · simp at h2
  · simp only [List.map_cons, List.take, coreNames, List.cons.injEq, and_true] at h1
    obtain ⟨e1, e2, e3, e4, e5⟩ := h1
    subst e1; subst e2; subst e3; subst e4; subst e5
    refine ⟨v1, v2, v3, v4, v5, rest, rfl, ?_⟩
    intro p hp
    exact h3 p (by simpa using hp)

theorem applyFn_of_WF {t : Transition} (fn : Tensor → Tensor) (dev : Option String) (h : t.WF) :
    t.applyFn fn dev = some ⟨t.fields.map (fun p => (p.1, mapValFn fn p.2)),
      match dev with
      | none => t.device
      | some d => some d⟩ := by
  obtain ⟨s, a, rw', ns, d, rest, hf, hrest⟩ := WF_shape h
  unfold Transition.applyFn Transition.rebuild
  rw [hf]
  simp only [List.map_append, List.map_cons, List.map_nil, List.lookup, List.filter_append,
    List.filter_cons, coreNames, List.contains_cons, List.filter_nil]
  simp [Transition.construct, coreNames]
  intro a b x x1 hmem hxa hb
  have hq := hrest (x, x1) hmem
  subst hxa
  simpa [coreNames] using hq

/-- C7 amended: for every well-formed record, the backend-transfer core
`_apply` (underlying `to`, `cpu`, `cuda`, `half` and `double`) returns a
*new* record with exactly the same field names in the same order, values
transformed field-wise, and the device tag transformed (the given device,
falling back to the current one) — the original record is a pure value
and stays unchanged.  However, the field set is *not* immutable after
construction: assigning a fresh attribute name appends that name to the
record's field list. -/
theorem transfer_new_record_same_fields (t : Transition) (fn : Tensor → Tensor)
    (dev : Option String) (h : t.WF) :
    (∃ t2, t.applyFn fn dev = some t2
        ∧ t2.fields.map Prod.fst = t.fields.map Prod.fst
        ∧ t2.device = (match dev with
            | none => t.device
            | some d => some d)
        ∧ t2.fields.map Prod.snd = t.fields.map (fun p => mapValFn fn p.2))
      ∧ ∀ name v, ¬ name ∈ t.fields.map Prod.fst → ¬ name = "device" → ¬ name = "_fields" →
          (t.setattr name v).fields.map Prod.fst = t.fields.map Prod.fst ++ [name] := by
  constructor
  · refine ⟨_, applyFn_of_WF fn dev h, ?_, rfl, ?_⟩
    · simp [List.map_map, Function.comp]
    · simp [List.map_map, Function.comp]
  · intro name v hmem hd hf
    unfold Transition.setattr
    rw [if_neg (by tauto), if_neg ?_]
    · simp
    · intro hc
      rw [show (t.fields.map Prod.fst).contains name
          = (t.fields.map Prod.fst).elem name from rfl] at hc
      exact hmem (List.elem_iff.mp hc)

/-- C7 counterexample: a record built by the constructor changes its
field set when a fresh attribute is assigned afterwards, so the field set
is not fixed at construction. -/
theorem setattr_grows_field_set_counterexample :
    ((trEx 0).setattr "log_prob" (vScalar 5)).fields.map Prod.fst
      ≠ (trEx 0).fields.map Prod.fst := by
  decide

theorem transfer_new_record_same_fields_witness :
    (∃ t2, (trEx 0).applyFn id (some "cpu") = some t2
        ∧ t2.fields.map Prod.fst = (trEx 0).fields.map Prod.fst
        ∧ t2.device = some "cpu"
        ∧ t2.fields.map Prod.snd = (trEx 0).fields.map (fun p => mapValFn id p.2))
      ∧ ((trEx 0).setattr "log_prob" (vScalar 5)).fields.map Prod.fst
        = (trEx 0).fields.map Prod.fst ++ ["log_prob"] := by
  obtain ⟨h1, h2⟩ := transfer_new_record_same_fields (trEx 0) id (some "cpu") (by decide)
  exact ⟨h1, h2 "log_prob" (vScalar 5) (by decide) (by decide) (by decide)⟩

theorem except_mapM_map {α : Type u} {β : Type v} {γ : Type w} {g : α → γ} {f : γ → Except PyErr β} :
    ∀ (l : List α), (l.map g).mapM f = l.mapM (fun x => f (g x)) := by
  intro l
  induction l with
  | nil => rfl
  | cons a l ih => rw [List.map_cons, List.mapM_cons, List.mapM_cons, ih]

theorem sample_contiguous_unfold (r : ExperienceReplay) (k : Int) (rng : List Nat)
    (hne : 1 ≤ r.storage.length) (hk : 1 ≤ k) :
    r.sample k true false rng =
      (do
        let start ← randint 0 ((r.storage.length : Int) - 1 - k) (rng.headD 0)
        let st ← (List.range' start.toNat k.toNat).mapM (fun i => pyIndex r.storage i)
        Except.ok ⟨st, none, r.vectorized⟩) := by
  unfold ExperienceReplay.sample
  rw [if_neg (by omega)]
  rfl

theorem sample_contiguous_error (r : ExperienceReplay) (k : Int) (rng : List Nat)
    (hne : 1 ≤ r.storage.length) (hk : 1 ≤ k)
    (hlt : (r.storage.length : Int) - 1 - k < 0) :
    r.sample k true false rng = .error .valueError := by
  rw [sample_contiguous_unfold r k rng hne hk, randint_error _ hlt]
  rfl

theorem sample_contiguous_ok (r : ExperienceReplay) (k : Int) (rng : List Nat)
    (hne : 1 ≤ r.storage.length) (hk : 1 ≤ k)
    (hge : 0 ≤ (r.storage.length : Int) - 1 - k) :
    ∃ start : Nat, (start : Int) ≤ (r.storage.length : Int) - 1 - k ∧
      r.sample k true false rng =
        .ok ⟨(r.storage.drop start).take k.toNat, none, r.vectorized⟩ := by
  have hro := randint_eq_ok (a := 0) (b := (r.storage.length : Int) - 1 - k) (rng.headD 0) hge
  obtain ⟨hlo, hhi⟩ :=
    randint_bounds (a := 0) (b := (r.storage.length : Int) - 1 - k) (rng.headD 0) hge
  refine ⟨(0 + (rng.headD 0 : Int) % ((r.storage.length : Int) - 1 - k - 0 + 1)).toNat, ?_, ?_⟩
  · rw [Int.toNat_of_nonneg hlo]
    exact hhi
  · rw [sample_contiguous_unfold r k rng hne hk, hro]
    show ((List.range' _ k.toNat).mapM (fun i => pyIndex r.storage i)).bind _ = _
    rw [mapM_pyIndex_range' k.toNat _ (by omega)]
    rfl

/-- C1 amended: for every *non-empty* buffer and size `k ≥ 1`, contiguous
non-episode sampling draws a start in `[0, (len-1) - k]` and returns the
`k` records at the consecutive indices from that start, and fails with
`ValueError` exactly when `(len-1) - k < 0`; on an *empty* buffer the
early-return guard yields an empty buffer instead of failing. -/
theorem sample_contiguous_run (r : ExperienceReplay) (k : Int) (rng : List Nat)
    (hne : r.storage ≠ []) (hk : 1 ≤ k) :
    ((r.storage.length : Int) - 1 - k < 0 →
        r.sample k true false rng = .error .valueError)
      ∧ (0 ≤ (r.storage.length : Int) - 1 - k →
        ∃ start : Nat, (start : Int) ≤ (r.storage.length : Int) - 1 - k ∧
          r.sample k true false rng =
            .ok ⟨(r.storage.drop start).take k.toNat, none, r.vectorized⟩)
      ∧ (∀ s : Nat, (s : Int) ≤ (r.storage.length : Int) - 1 - k →
          r.sample k true false [s] =
            .ok ⟨(r.storage.drop s).take k.toNat, none, r.vectorized⟩) := by
  have hlen : 1 ≤ r.storage.length := List.length_pos.mpr hne
  refine ⟨fun hlt => sample_contiguous_error r k rng hlen hk hlt,
    fun hge => sample_contiguous_ok r k rng hlen hk hge, ?_⟩
  intro s hs
  have hs0 : (0 : Int) ≤ (s : Int) := Int.natCast_nonneg s
  have hge : 0 ≤ (r.storage.length : Int) - 1 - k := le_trans hs0 hs
  rw [sample_contiguous_unfold r k [s] hlen hk]
  have hmod : ((s : Int)) % ((r.storage.length : Int) - 1 - k - 0 + 1) = (s : Int) :=
    Int.emod_eq_of_lt hs0 (by omega)
  simp only [List.headD_cons]
  rw [randint_eq_ok (a := 0) (b := (r.storage.length : Int) - 1 - k) s hge, hmod]
  show ((List.range' (0 + (s : Int)).toNat k.toNat).mapM (fun i => pyIndex r.storage i)).bind _ = _
  have htn : (0 + (s : Int)).toNat = s := by omega
  rw [htn, mapM_pyIndex_range' k.toNat s (by omega)]
  rfl

/-- C1 counterexample: on the empty buffer with `k = 1` the bound
`(len-1) - k` is negative, yet `sample` does not fail: the empty-buffer
guard returns an empty Buffer. -/
theorem sample_contiguous_empty_counterexample :
    (((⟨[], none, false⟩ : ExperienceReplay).storage.length : Int) - 1 - 1 < 0)
      ∧ ExperienceReplay.sample ⟨[], none, false⟩ 1 true false [0]
        = .ok ⟨[], none, false⟩ := by
  exact ⟨by decide, rfl⟩

theorem sample_contiguous_run_witness :
    rep3.sample 2 true false [0] = .ok ⟨[trEx 0, trEx 0], none, false⟩
      ∧ rep3.sample 3 true false [0] = .error .valueError := by
  have h2 := sample_contiguous_run rep3 2 [0] (by decide) (by decide)
  have h3 := sample_contiguous_run rep3 3 [0] (by decide) (by decide)
  constructor
  · have hx := h2.2.2 0 (by decide)
    have he : ((rep3.storage.drop 0).take (2 : Int).toNat) = [trEx 0, trEx 0] := rfl
    rw [he] at hx
    exact hx
  · exact h3.1 (by decide)

/-- C10: contiguous non-episode sampling can only ever return records
stored at indices in `[0, len-2]` — the last stored record is never part
of any contiguous transition sample — and requesting `k = len` contiguous
transitions always fails with `ValueError` even though a full-buffer
contiguous run exists. -/
theorem sample_contiguous_never_last (r : ExperienceReplay) (k : Int) (rng : List Nat)
    (hk : 1 ≤ k) :
    (∀ res, r.sample k true false rng = .ok res →
        ∀ rec ∈ res.storage, ∃ j, j + 1 < r.storage.length ∧ r.storage.get? j = some rec)
      ∧ (k = (r.storage.length : Int) → r.sample k true false rng = .error .valueError) := by
  constructor
  · intro res hres rec hrec
    by_cases hemp : r.storage = []
    · unfold ExperienceReplay.sample at hres
      rw [if_pos (Or.inl (by simp [hemp]))] at hres
      have : res = ⟨[], none, r.vectorized⟩ := by
        injection hres with h
        exact h.symm
      rw [this] at hrec
      simp at hrec
    · have hlen : 1 ≤ r.storage.length := List.length_pos.mpr hemp
      by_cases hlt : (r.storage.length : Int) - 1 - k < 0
      · rw [sample_contiguous_error r k rng hlen hk hlt] at hres
        exact absurd hres (by simp)
      · obtain ⟨start, hstart, heq⟩ := sample_contiguous_ok r k rng hlen hk (by omega)
        rw [heq] at hres
        have hres2 : res = ⟨(r.storage.drop start).take k.toNat, none, r.vectorized⟩ := by
          injection hres with h
          exact h.symm
        rw [hres2] at hrec
        obtain ⟨i, hi⟩ := List.mem_iff_get?.mp hrec
        have hilt : i < ((r.storage.drop start).take k.toNat).length := by
          rcases List.get?_eq_some.mp hi with ⟨hw, _⟩
          exact hw
        have hik : i < k.toNat := lt_of_lt_of_le hilt (by
          rw [List.length_take]
          exact min_le_left _ _)
        refine ⟨start + i, ?_, ?_⟩
        · omega
        · rw [← hi, List.get?_take hik, List.get?_eq_getElem?, List.get?_eq_getElem?]
          exact (List.getElem?_drop r.storage start i).symm
  · intro hkeq
    have hlen : 1 ≤ r.storage.length := by omega
    exact sample_contiguous_error r k rng hlen hk (by omega)

theorem sample_contiguous_never_last_witness :
    (∃ j, j + 1 < rep3.storage.length ∧ rep3.storage.get? j = some (trEx 0))
      ∧ rep3.sample 3 true false [5] = .error .valueError := by
  have h2 := sample_contiguous_never_last rep3 2 [5] (by decide)
  have h3 := sample_contiguous_never_last rep3 3 [5] (by decide)
  refine ⟨?_, h3.2 (by decide)⟩
  exact h2.1 ⟨[trEx 0, trEx 0], none, false⟩ (by decide) (trEx 0) (by decide)

theorem sample_replacement_unfold (r : ExperienceReplay) (k : Int) (rng : List Nat)
    (hne : 1 ≤ r.storage.length) (hk : 1 ≤ k) :
    r.sample k false false rng =
      (do
        let idxs ← (List.range k.toNat).mapM
          (fun i => (randint 0 ((r.storage.length : Int) - 1) (rng.getD i 0)).map Int.toNat)
        let st ← idxs.mapM (fun i => pyIndex r.storage i)
        Except.ok ⟨st, none, r.vectorized⟩) := by
  unfold ExperienceReplay.sample
  rw [if_neg (by omega)]
  rfl

theorem randint_toNat_ok (L : Int) (hL : 0 ≤ L) (c : Nat) :
    ∃ j : Nat, (randint 0 L c).map Int.toNat = .ok j ∧ (j : Int) ≤ L := by
  rw [randint_eq_ok c hL]
  obtain ⟨h1, h2⟩ := randint_bounds (a := 0) (b := L) c hL
  refine ⟨(0 + (c : Int) % (L - 0 + 1)).toNat, rfl, ?_⟩
  rw [Int.toNat_of_nonneg h1]
  exact h2

theorem randint_draws_exact (L : Int) :
    ∀ (idxs : List Nat), (∀ j ∈ idxs, (j : Int) ≤ L) →
      (List.range idxs.length).mapM
          (fun i => (randint 0 L (idxs.getD i 0)).map Int.toNat) = .ok idxs := by
  intro idxs
  induction idxs with
  | nil => intro _; rfl
  | cons x xs ih =>
    intro hb
    have hx : ((x : Nat) : Int) ≤ L := hb x (by simp)
    have hx0 : (0 : Int) ≤ (x : Int) := Int.natCast_nonneg x
    have hL : (0 : Int) ≤ L := le_trans hx0 hx
    have hr : randint 0 L x = .ok (x : Int) := by
      rw [randint_eq_ok x hL, Int.emod_eq_of_lt hx0 (by omega)]
      congr 1
      omega
    rw [List.length_cons, List.range_succ_eq_map, List.mapM_cons, except_mapM_map]
    simp only [List.getD_cons_zero, List.getD_cons_succ, Nat.succ_eq_add_one]
    rw [hr]
    have ih2 := ih (fun j hj => hb j (by simp [hj]))
    rw [ih2]
    rfl

/-- C2: for every non-empty buffer and `1 ≤ k ≤ len`, with-replacement
non-contiguous sampling always succeeds with exactly `k` records, each
taken from the source buffer, and every index sequence over
`[0, len-1]` (duplicates permitted) is realized by some random outcome,
position by position. -/
theorem sample_with_replacement (r : ExperienceReplay) (k : Int)
    (hne : r.storage ≠ []) (hk1 : 1 ≤ k) (hk2 : k ≤ (r.storage.length : Int)) :
    (∀ rng, ∃ res, r.sample k false false rng = .ok res
        ∧ res.storage.length = k.toNat ∧ res.vectorized = r.vectorized
        ∧ ∀ rec ∈ res.storage, rec ∈ r.storage)
      ∧ (∀ idxs : List Nat, idxs.length = k.toNat → (∀ j ∈ idxs, j < r.storage.length) →
        ∃ res, r.sample k false false idxs = .ok res
          ∧ res.storage.length = k.toNat
          ∧ ∀ i, res.storage.get? i = (idxs.get? i).bind r.storage.get?) := by
  have hlen : 1 ≤ r.storage.length := List.length_pos.mpr hne
  have hL : (0 : Int) ≤ (r.storage.length : Int) - 1 := by omega
  constructor
  · intro rng
    obtain ⟨idxs, hidxs, hlen2, hmem2⟩ :=
      except_mapM_ok_exists (l := List.range k.toNat)
        (f := fun i => (randint 0 ((r.storage.length : Int) - 1) (rng.getD i 0)).map Int.toNat)
        (fun i _ => by
          obtain ⟨j, hj, _⟩ := randint_toNat_ok ((r.storage.length : Int) - 1) hL (rng.getD i 0)
          exact ⟨j, hj⟩)
    have hbound : ∀ j ∈ idxs, j < r.storage.length := by
      intro j hj
      obtain ⟨i, _, hfi⟩ := hmem2 j hj
      obtain ⟨j2, hj2, hj2b⟩ := randint_toNat_ok ((r.storage.length : Int) - 1) hL (rng.getD i 0)
      rw [hfi] at hj2
      have hj2c : j = j2 := by injection hj2
      omega
    obtain ⟨st, hst, hstlen, hstmem⟩ :=
      except_mapM_ok_exists (l := idxs) (f := fun i => pyIndex r.storage i)
        (fun j hj => ⟨r.storage.get ⟨j, hbound j hj⟩, pyIndex_ok (hbound j hj)⟩)
    refine ⟨⟨st, none, r.vectorized⟩, ?_, ?_, rfl, ?_⟩
    · rw [sample_replacement_unfold r k rng hlen hk1, hidxs]
      show (idxs.mapM (fun i => pyIndex r.storage i)).bind _ = _
      rw [hst]
      rfl
    · show st.length = k.toNat
      rw [hstlen, hlen2, List.length_range]
    · intro rec hrec
      obtain ⟨j, _, hfj⟩ := hstmem rec hrec
      exact (pyIndex_mem hfj).1
  · intro idxs hidlen hbound
    obtain ⟨st, hst, hstlen, hstpt⟩ := mapM_pyIndex_pointwise idxs hbound
    refine ⟨⟨st, none, r.vectorized⟩, ?_, by simpa [hidlen] using hstlen, hstpt⟩
    rw [sample_replacement_unfold r k idxs hlen hk1]
    have hdr := randint_draws_exact ((r.storage.length : Int) - 1) idxs
      (fun j hj => by have := hbound j hj; omega)
    rw [hidlen] at hdr
    rw [hdr]
    show (idxs.mapM (fun i => pyIndex r.storage i)).bind _ = _
    rw [hst]
    rfl

theorem sample_with_replacement_witness :
    (∃ res, rep3.sample 2 false false [9, 9] = .ok res
        ∧ res.storage.length = 2 ∧ res.vectorized = false
        ∧ ∀ rec ∈ res.storage, rec ∈ rep3.storage)
      ∧ (∃ res, rep3.sample 2 false false [2, 2] = .ok res
        ∧ res.storage.length = 2
        ∧ ∀ i, res.storage.get? i = (([2, 2] : List Nat).get? i).bind rep3.storage.get?) := by
  have h := sample_with_replacement rep3 2 (by decide) (by decide) (by decide)
  exact ⟨h.1 [9, 9], h.2 [2, 2] (by decide) (by decide)⟩

theorem prevStart_succ (flags : List Bool) (e : Nat) :
    prevStart flags (e + 1) = if flags.getD e false then e + 1 else prevStart flags e := by
  unfold prevStart
  rw [List.range_succ, List.foldl_append]
  rfl

theorem prevStart_le (flags : List Bool) : ∀ e, prevStart flags e ≤ e := by
  intro e
  induction e with
  | zero => exact Nat.le_refl 0
  | succ e ih =>
    rw [prevStart_succ]
    split
    · exact Nat.le_refl _
    · omega

theorem prevStart_no_terminal (flags : List Bool) :
    ∀ e j, prevStart flags e ≤ j → j < e → flags.getD j false = false := by
  intro e
  induction e with
  | zero => intro j _ h; exact absurd h (Nat.not_lt_zero j)
  | succ e ih =>
    intro j h1 h2
    rw [prevStart_succ] at h1
    by_cases hf : flags.getD e false
    · rw [if_pos hf] at h1
      omega
    · rw [if_neg hf] at h1
      rcases Nat.lt_succ_iff_lt_or_eq.mp h2 with h2 | h2
      · exact ih j h1 h2
      · rw [h2]
        simpa using hf

theorem pyBool_boolInt (b : Bool) : pyBool [boolInt b] = .ok b := by
  cases b <;> rfl

theorem rows_getD (flags : List Bool) (idx : Nat) (h : idx < flags.length) :
    (flags.map (fun b => [boolInt b])).getD idx [] = [boolInt (flags.getD idx false)] := by
  have h2 : idx < (flags.map (fun b => [boolInt b])).length := by simpa using h
  simp [List.getD_eq_getElem?_getD, List.getElem?_eq_getElem, h, h2]

theorem findEndIdxAux_cons_true {rows : List (List Int)} {idx : Nat} {l : List Nat}
    {endv count : Int} (hrow : pyBool (rows.getD idx []) = .ok true) :
    findEndIdxAux rows (idx :: l) endv count
      = if endv ≤ count then .ok idx else findEndIdxAux rows l endv (count + 1) := by
  conv_lhs => rw [findEndIdxAux]
  rw [hrow]

theorem findEndIdxAux_cons_false {rows : List (List Int)} {idx : Nat} {l : List Nat}
    {endv count : Int} (hrow : pyBool (rows.getD idx []) = .ok false) :
    findEndIdxAux rows (idx :: l) endv count = findEndIdxAux rows l endv count := by
  conv_lhs => rw [findEndIdxAux]
  rw [hrow]

theorem fillIndicesAux_cons_true {rows : List (List Int)} {idx : Nat} {l : List Nat}
    {size count : Int} {acc : List Nat} (hrow : pyBool (rows.getD idx []) = .ok true) :
    fillIndicesAux rows (idx :: l) size count acc
      = if size ≤ count + 1 then .ok acc
        else fillIndicesAux rows l size (count + 1) (idx :: acc) := by
  conv_lhs => rw [fillIndicesAux]
  rw [hrow]

theorem fillIndicesAux_cons_false {rows : List (List Int)} {idx : Nat} {l : List Nat}
    {size count : Int} {acc : List Nat} (hrow : pyBool (rows.getD idx []) = .ok false) :
    fillIndicesAux rows (idx :: l) size count acc
      = fillIndicesAux rows l size count (idx :: acc) := by
  conv_lhs => rw [fillIndicesAux]
  rw [hrow]

theorem count_take_succ (flags : List Bool) (m : Nat) (h : m < flags.length) :
    (flags.take (m + 1)).count true
      = (flags.take m).count true + (if flags.getD m false then 1 else 0) := by
  rw [List.take_succ, List.getElem?_eq_getElem h, List.count_append]
  have hg : flags.getD m false = flags[m] := by
    simp [List.getD_eq_getElem?_getD, List.getElem?_eq_getElem, h]
  rw [hg]
  cases hb : flags[m] <;> simp [List.count_cons]

theorem reverse_range_succ (m : Nat) :
    (List.range (m + 1)).reverse = m :: (List.range m).reverse := by
  rw [List.range_succ, List.reverse_append, List.reverse_singleton, List.singleton_append]

theorem findEndIdx_ok (flags : List Bool) :
    ∀ (m : Nat) (endv count : Int), m ≤ flags.length →
      endv - count < ((flags.take m).count true : Int) →
      1 ≤ (flags.take m).count true →
      ∃ e, findEndIdxAux (flags.map (fun b => [boolInt b]))
          (List.range m).reverse endv count = .ok e
        ∧ e < m ∧ flags.getD e false = true := by
  intro m
  induction m with
  | zero => intro endv count _ _ hcnt; simp at hcnt
  | succ m ih =>
    intro endv count hm h1 h2
    have hmlt : m < flags.length := by omega
    rw [reverse_range_succ]
    have hcnt := count_take_succ flags m hmlt
    cases hflag : flags.getD m false with
    | true =>
      rw [findEndIdxAux_cons_true (by rw [rows_getD flags m hmlt, hflag, pyBool_boolInt])]
      by_cases hle : endv ≤ count
      · rw [if_pos hle]
        exact ⟨m, rfl, Nat.lt_succ_self m, hflag⟩
      · rw [if_neg hle]
        rw [hflag] at hcnt
        simp only [if_pos] at hcnt
        obtain ⟨e, he, helt, heflag⟩ := ih endv (count + 1) (by omega)
          (by push_cast at h1 ⊢; omega) (by omega)
        exact ⟨e, he, by omega, heflag⟩
    | false =>
      rw [findEndIdxAux_cons_false (by rw [rows_getD flags m hmlt, hflag, pyBool_boolInt])]
      rw [hflag] at hcnt
      simp only [if_neg, Bool.false_eq_true, not_false_eq_true, ite_false, Nat.add_zero] at hcnt
      obtain ⟨e, he, helt, heflag⟩ := ih endv count (by omega)
        (by rw [hcnt] at h1; exact h1) (by omega)
      exact ⟨e, he, by omega, heflag⟩

theorem fillIndicesAux_range (flags : List Bool) :
    ∀ (e : Nat) (acc : List Nat), e ≤ flags.length →
      fillIndicesAux (flags.map (fun b => [boolInt b])) (List.range e).reverse 1 0 acc
        = .ok (List.range' (prevStart flags e) (e - prevStart flags e) ++ acc) := by
  intro e
  induction e with
  | zero => intro acc _; rfl
  | succ e ih =>
    intro acc he
    have helt : e < flags.length := by omega
    rw [reverse_range_succ]
    cases hflag : flags.getD e false with
    | true =>
      rw [fillIndicesAux_cons_true (by rw [rows_getD flags e helt, hflag, pyBool_boolInt])]
      rw [if_pos (by omega : (1 : Int) ≤ 0 + 1)]
      rw [prevStart_succ, hflag]
      simp
    | false =>
      rw [fillIndicesAux_cons_false (by rw [rows_getD flags e helt, hflag, pyBool_boolInt])]
      rw [ih (e :: acc) (by omega)]
      rw [prevStart_succ, hflag]
      simp only [Bool.false_eq_true, if_false]
      have hle := prevStart_le flags e
      congr 1
      rw [show e + 1 - prevStart flags e = (e - prevStart flags e) + 1 by omega,
        List.range'_1_concat,
        show prevStart flags e + (e - prevStart flags e) = e by omega,
        List.append_assoc, List.singleton_append]

theorem except_bind_ok {α β : Type u} (a : α) (k : α → Except PyErr β) :
    ((Except.ok a : Except PyErr α) >>= fun x => k x) = k a := rfl

theorem accessProperty_values (r : ExperienceReplay) (name : String) (t0 : Tensor) (vs : List Val)
    (h : r.storage.mapM (fun t => t.fields.lookup name) = some (Val.tens t0 :: vs)) :
    r.accessProperty name = (do
      let ts ← (Val.tens t0 :: vs).mapM (fun v =>
        match v with
        | Val.tens t => Except.ok t
        | Val.obj _ => Except.error PyErr.typeError)
      let c ← catDim0 ts
      viewT c ((Val.tens t0 :: vs).length :: minSizeT t0)) := by
  unfold ExperienceReplay.accessProperty
  rw [h]
  rfl

theorem sum_map_one {α : Type u} (l : List α) : (l.map (fun _ => (1 : Nat))).sum = l.length := by
  induction l with
  | nil => rfl
  | cons a l ih => simp [ih, Nat.add_comm]

theorem flatten_map_singleton_id (l : List Int) : (l.map (fun x => [x])).flatten = l := by
  induction l with
  | nil => rfl
  | cons a l ih => simp [ih]

theorem catDim0_scalars (x0 : Int) (xs : List Int) :
    catDim0 ((x0 :: xs).map (fun x => (⟨[1], [x]⟩ : Tensor)))
      = .ok ⟨[(x0 :: xs).length], x0 :: xs⟩ := by
  have hall : (xs.map (fun x => (⟨[1], [x]⟩ : Tensor))).all
      (fun t => decide (t.shape ≠ []) && decide (t.shape.tail = [])) = true := by
    rw [List.all_eq_true]
    intro t ht
    obtain ⟨y, _, hy⟩ := List.mem_map.mp ht
    rw [← hy]
    rfl
  unfold catDim0
  simp [hall, List.map_map]
  constructor
  · rw [show ((fun t => t.shape.head?.getD 0) ∘ fun x => (⟨[1], [x]⟩ : Tensor))
        = (fun _ => (1 : Nat)) from rfl, sum_map_one]
    omega
  · rw [show (Tensor.data ∘ fun x => (⟨[1], [x]⟩ : Tensor)) = (fun x => [x]) from rfl,
      flatten_map_singleton_id]

theorem count_true_sum (flags : List Bool) :
    (flags.map boolInt).sum = ((flags.count true : Nat) : Int) := by
  induction flags with
  | nil => rfl
  | cons b l ih =>
    rw [List.map_cons, List.sum_cons, ih, List.count_cons]
    cases b
    all_goals simp [boolInt]
    all_goals omega

theorem rows_of_column (xs : List Int) :
    (List.range xs.length).map (fun i => (xs.drop i).take 1) = xs.map (fun x => [x]) := by
  induction xs with
  | nil => rfl
  | cons x xs ih =>
    rw [List.length_cons, List.range_succ_eq_map, List.map_cons, List.map_map]
    congr 1

theorem tensorRows_flags (flags : List Bool) :
    tensorRows ⟨[flags.length, 1], flags.map boolInt⟩ = flags.map (fun b => [boolInt b]) := by
  unfold tensorRows
  simp only [List.tail_cons, List.prod_cons, List.prod_nil, mul_one, List.headD_cons, one_mul]
  rw [show flags.length = (flags.map boolInt).length from (List.length_map _ _).symm,
    rows_of_column, List.map_map]
  rfl

theorem accessProperty_done (r : ExperienceReplay) (b0 : Bool) (rest : List Bool)
    (hlink : r.storage.map (fun t => t.fields.lookup "done")
      = (b0 :: rest).map (fun b => some (vScalar (boolInt b)))) :
    r.accessProperty "done"
      = .ok ⟨[(b0 :: rest).length, 1], (b0 :: rest).map boolInt⟩ := by
  have hmm : r.storage.mapM (fun t => t.fields.lookup "done")
      = some (Val.tens ⟨[1], [boolInt b0]⟩ :: rest.map (fun b => vScalar (boolInt b))) := by
    apply option_mapM_of_map_eq
    rw [hlink]
    simp [List.map_map, Function.comp, vScalar]
  rw [accessProperty_values r "done" ⟨[1], [boolInt b0]⟩
    (rest.map (fun b => vScalar (boolInt b))) hmm]
  have h1 : (Val.tens ⟨[1], [boolInt b0]⟩ :: rest.map (fun b => vScalar (boolInt b))).mapM
      (fun v => match v with
        | Val.tens t => Except.ok t
        | Val.obj _ => Except.error PyErr.typeError)
      = .ok ((boolInt b0 :: rest.map boolInt).map (fun x => (⟨[1], [x]⟩ : Tensor))) := by
    rw [except_mapM_ok_map
      (g := fun v => match v with
        | Val.tens t => t
        | Val.obj _ => (⟨[], []⟩ : Tensor))
      (fun v hv => by
        rcases List.mem_cons.mp hv with h | h
        · rw [h]
        · obtain ⟨b, _, hb⟩ := List.mem_map.mp h
          rw [← hb]
          rfl)]
    congr 1
    simp [List.map_map, Function.comp, vScalar]
  rw [h1, except_bind_ok]
  rw [catDim0_scalars (boolInt b0) (rest.map boolInt), except_bind_ok]
  unfold viewT
  rw [if_pos (by simp [minSizeT])]
  simp [minSizeT]

theorem sampleEpisodes1_spec (r : ExperienceReplay) (b0 : Bool) (rest : List Bool) (choice : Nat)
    (hlink : r.storage.map (fun t => t.fields.lookup "done")
      = (b0 :: rest).map (fun b => some (vScalar (boolInt b))))
    (hsome : true ∈ (b0 :: rest)) :
    ∃ e, e < (b0 :: rest).length ∧ (b0 :: rest).getD e false = true
      ∧ r.sampleEpisodesContiguous 1 choice
        = .ok ⟨(r.storage.drop (prevStart (b0 :: rest) e)).take
            (e + 1 - prevStart (b0 :: rest) e), none, r.vectorized⟩ := by
  have hlen : r.storage.length = (b0 :: rest).length := by
    have := congrArg List.length hlink
    simpa using this
  have hap := accessProperty_done r b0 rest hlink
  have step1 : r.sampleEpisodesContiguous 1 choice
      = ((randint (1 - 1) (((b0 :: rest).map boolInt).sum - 1) choice) >>= fun endv =>
          (findEndIdxAux (tensorRows ⟨[(b0 :: rest).length, 1], (b0 :: rest).map boolInt⟩)
            (List.range
              (tensorRows ⟨[(b0 :: rest).length, 1], (b0 :: rest).map boolInt⟩).length).reverse
            endv 0) >>= fun endIdx =>
          (fillIndicesAux (tensorRows ⟨[(b0 :: rest).length, 1], (b0 :: rest).map boolInt⟩)
            (List.range endIdx).reverse 1 0 [endIdx]) >>= fun indices =>
          (indices.mapM (fun i => pyIndex r.storage i)) >>= fun st =>
          Except.ok ⟨st, none, r.vectorized⟩) := by
    unfold ExperienceReplay.sampleEpisodesContiguous
    rw [hap]
    rfl
  have hcpos : 0 < (b0 :: rest).count true := List.count_pos_iff.mpr hsome
  have hge : (0 : Int) ≤ ((b0 :: rest).count true : Int) - 1 := by push_cast; omega
  obtain ⟨hlo, hhi⟩ :=
    randint_bounds (a := 0) (b := ((b0 :: rest).count true : Int) - 1) choice hge
  obtain ⟨e, hfind, helt, heflag⟩ := findEndIdx_ok (b0 :: rest) (b0 :: rest).length
    (0 + (choice : Int) % (((b0 :: rest).count true : Int) - 1 - 0 + 1)) 0
    (Nat.le_refl _)
    (by rw [List.take_length]; omega)
    (by rw [List.take_length]; omega)
  have hps := prevStart_le (b0 :: rest) e
  have hconcat : List.range' (prevStart (b0 :: rest) e) (e - prevStart (b0 :: rest) e) ++ [e]
      = List.range' (prevStart (b0 :: rest) e) (e + 1 - prevStart (b0 :: rest) e) := by
    rw [show e + 1 - prevStart (b0 :: rest) e = (e - prevStart (b0 :: rest) e) + 1 by omega,
      List.range'_1_concat,
      show prevStart (b0 :: rest) e + (e - prevStart (b0 :: rest) e) = e by omega]
  have heq : r.sampleEpisodesContiguous 1 choice
      = .ok ⟨(r.storage.drop (prevStart (b0 :: rest) e)).take
          (e + 1 - prevStart (b0 :: rest) e), none, r.vectorized⟩ := by
    rw [step1, tensorRows_flags, count_true_sum,
      show (1 : Int) - 1 = 0 from rfl, randint_eq_ok choice hge, except_bind_ok,
      List.length_map, hfind, except_bind_ok,
      fillIndicesAux_range (b0 :: rest) e [e] (by omega), hconcat, except_bind_ok,
      mapM_pyIndex_range' (e + 1 - prevStart (b0 :: rest) e) (prevStart (b0 :: rest) e)
        (by omega)]
    rfl
  exact ⟨e, helt, heflag, heq⟩

/-- C3: for every non-vectorized buffer of transitions whose scalar `done`
flags are given by `flags` with at least one terminal record,
`sample(size=1, episodes=true)` returns a contiguous slice of the storage
that spans exactly one completed episode: it runs from just after the
previous terminal record (or from index 0) up to and including the chosen
terminal record, whose `done` flag is set; no interior record of the
returned Buffer is terminal. -/
theorem sample_single_episode (r : ExperienceReplay) (flags : List Bool) (rng : List Nat)
    (hvec : r.vectorized = false)
    (hlink : r.storage.map (fun t => t.fields.lookup "done")
      = flags.map (fun b => some (vScalar (boolInt b))))
    (hsome : true ∈ flags) :
    ∃ e res, r.sample 1 false true rng = .ok res
      ∧ e < r.storage.length ∧ flags.getD e false = true
      ∧ res.storage = (r.storage.drop (prevStart flags e)).take (e + 1 - prevStart flags e)
      ∧ res.storage.length = e + 1 - prevStart flags e
      ∧ res.storage.get? (e - prevStart flags e) = r.storage.get? e
      ∧ (∃ t, r.storage.get? e = some t ∧ t.fields.lookup "done" = some (vScalar 1))
      ∧ (∀ j, prevStart flags e ≤ j → j < e → flags.getD j false = false)
      ∧ res.vectorized = r.vectorized := by
  have hlen : r.storage.length = flags.length := by
    have := congrArg List.length hlink
    simpa using this
  obtain ⟨b0, rest, rfl⟩ : ∃ b0 rest, flags = b0 :: rest := by
    cases flags with
    | nil => simp at hsome
    | cons b0 rest => exact ⟨b0, rest, rfl⟩
  obtain ⟨e, helt, heflag, heq⟩ := sampleEpisodes1_spec r b0 rest (rng.headD 0) hlink hsome
  have helt2 : e < r.storage.length := by omega
  have hps := prevStart_le (b0 :: rest) e
  have hdisp : r.sample 1 false true rng = r.sampleEpisodesContiguous 1 (rng.headD 0) := by
    unfold ExperienceReplay.sample
    rw [if_neg (by omega), if_pos rfl, if_neg (by rw [hvec]; simp), if_neg (by simp)]
  refine ⟨e, ⟨(r.storage.drop (prevStart (b0 :: rest) e)).take
      (e + 1 - prevStart (b0 :: rest) e), none, r.vectorized⟩,
    by rw [hdisp, heq], helt2, heflag, rfl, ?_, ?_, ?_,
    fun j h1 h2 => prevStart_no_terminal (b0 :: rest) e j h1 h2, rfl⟩
  · show ((r.storage.drop (prevStart (b0 :: rest) e)).take
        (e + 1 - prevStart (b0 :: rest) e)).length = e + 1 - prevStart (b0 :: rest) e
    rw [List.length_take, List.length_drop]
    omega
  · show ((r.storage.drop (prevStart (b0 :: rest) e)).take
        (e + 1 - prevStart (b0 :: rest) e)).get? (e - prevStart (b0 :: rest) e)
      = r.storage.get? e
    rw [List.get?_take (by omega), List.get?_eq_getElem?, List.get?_eq_getElem?,
      List.getElem?_drop]
    congr 1
    omega
  · have hmape := congrArg (fun l => l.get? e) hlink
    simp only [List.get?_eq_getElem?, List.getElem?_map] at hmape
    have hse : r.storage[e]? = some r.storage[e] := List.getElem?_eq_getElem helt2
    have hfe : (b0 :: rest)[e]? = some (b0 :: rest)[e] :=
      List.getElem?_eq_getElem (by omega)
    rw [hse, hfe] at hmape
    simp only [Option.map_some'] at hmape
    have hflag2 : (b0 :: rest)[e] = true := by
      have : (b0 :: rest).getD e false = (b0 :: rest)[e] := by
        simp [List.getD_eq_getElem?_getD, hfe]
      rw [← this, heflag]
    refine ⟨r.storage[e], by rw [List.get?_eq_getElem?, hse], ?_⟩
    have hmape2 : r.storage[e].fields.lookup "done" = some (vScalar (boolInt (b0 :: rest)[e])) := by
      injection hmape
    rw [hmape2, hflag2]
    rfl

theorem sample_single_episode_witness :
    ∃ e res, rep5.sample 1 false true [0] = .ok res
      ∧ e < rep5.storage.length
      ∧ ([false, false, true, false, true] : List Bool).getD e false = true
      ∧ res.storage = (rep5.storage.drop (prevStart [false, false, true, false, true] e)).take
          (e + 1 - prevStart [false, false, true, false, true] e)
      ∧ res.storage.length = e + 1 - prevStart [false, false, true, false, true] e
      ∧ res.storage.get? (e - prevStart [false, false, true, false, true] e)
        = rep5.storage.get? e
      ∧ (∃ t, rep5.storage.get? e = some t ∧ t.fields.lookup "done" = some (vScalar 1))
      ∧ (∀ j, prevStart [false, false, true, false, true] e ≤ j → j < e →
          ([false, false, true, false, true] : List Bool).getD j false = false)
      ∧ res.vectorized = rep5.vectorized :=
  sample_single_episode rep5 [false, false, true, false, true] [0] rfl (by decide) (by decide)

theorem map_mapValFn_id (l : List (String × Val)) :
    l.map (fun p => (p.1, mapValFn id p.2)) = l := by
  induction l with
  | nil => rfl
  | cons p l ih => simp [mapValFn_id, ih]

theorem flatten_entries_ok (sars : Transition) (E i : Nat) (hi : i < E)
    (hrec : ∀ p ∈ sars.fields, ∃ sh dat, p.2 = Val.tens ⟨E :: sh, dat⟩) :
    sars.fields.mapM (fun p => do
        let v ← valIndex p.2 i
        pure (p.1, if istensorable v then unsqueeze0 v else v))
      = .ok (sars.fields.map (fun p => (p.1,
          match p.2 with
          | Val.tens t => Val.tens ⟨1 :: t.shape.tail,
              (t.data.drop (i * t.shape.tail.prod)).take t.shape.tail.prod⟩
          | Val.obj o => Val.obj o))) := by
  apply except_mapM_ok_map
  intro p hp
  obtain ⟨sh, dat, hv⟩ := hrec p hp
  rw [hv]
  have hval : valIndex (Val.tens ⟨E :: sh, dat⟩) i
      = .ok (Val.tens ⟨sh, (dat.drop (i * sh.prod)).take sh.prod⟩) := by
    show (if i < E then
        Except.ok (Val.tens ⟨sh, (dat.drop (i * sh.prod)).take sh.prod⟩)
      else Except.error PyErr.indexError)
      = Except.ok (Val.tens ⟨sh, (dat.drop (i * sh.prod)).take sh.prod⟩)
    rw [if_pos hi]
  rw [hval, except_bind_ok]
  rfl

theorem append_tensor_entries (acc : ExperienceReplay)
    (hv : acc.vectorized = false) (hd : acc.device = none)
    (s a rw ns d : Tensor) (infos : List (String × Val))
    (hinfos_core : ∀ p ∈ infos, ¬ p.1 ∈ coreNames)
    (hinfos_nodup : (coreNames ++ infos.map Prod.fst).Nodup) :
    acc.append (some (.tens s)) (some (.tens a)) (some (.tens rw))
        (some (.tens ns)) (some (.tens d)) infos
      = .ok { acc with storage := acc.storage
          ++ [⟨[("state", .tens s), ("action", .tens a), ("reward", .tens rw),
                ("next_state", .tens ns), ("done", .tens d)] ++ infos, none⟩] } := by
  have hWF : (Transition.construct (Val.tens s) (Val.tens a) (Val.tens rw)
      (Val.tens ns) (Val.tens d) none infos).WF := by
    refine ⟨by simp [Transition.construct, coreNames], by simp [Transition.construct], ?_, ?_⟩
    · intro p hp
      simp only [Transition.construct, List.cons_append, List.nil_append,
        List.drop_succ_cons, List.drop_zero] at hp
      exact hinfos_core p hp
    · simpa [Transition.construct, coreNames] using hinfos_nodup
  unfold ExperienceReplay.append
  rw [hv, hd]
  show (match (Transition.construct (Val.tens s) (Val.tens a) (Val.tens rw)
      (Val.tens ns) (Val.tens d) none infos).applyFn id none with
    | some s2 => Except.ok (⟨acc.storage ++ [s2], none, false⟩ : ExperienceReplay)
    | none => Except.error PyErr.typeError)
    = Except.ok (⟨acc.storage
        ++ [⟨[("state", Val.tens s), ("action", Val.tens a), ("reward", Val.tens rw),
            ("next_state", Val.tens ns), ("done", Val.tens d)] ++ infos, none⟩],
        none, false⟩ : ExperienceReplay)
  rw [applyFn_of_WF id none hWF]
  simp only [Transition.construct, map_mapValFn_id]

theorem gmatch_tens (t : Tensor) (i : Nat) :
    (match Val.tens t with
      | Val.tens t => Val.tens ⟨1 :: t.shape.tail,
          (t.data.drop (i * t.shape.tail.prod)).take t.shape.tail.prod⟩
      | Val.obj o => Val.obj o)
      = Val.tens ⟨1 :: t.shape.tail,
          (t.data.drop (i * t.shape.tail.prod)).take t.shape.tail.prod⟩ := rfl

theorem append_from_entries (acc : ExperienceReplay)
    (hv : acc.vectorized = false) (hd : acc.device = none)
    (s a rw ns d : Tensor) (infos : List (String × Val))
    (hinfos_core : ∀ p ∈ infos, ¬ p.1 ∈ coreNames)
    (hinfos_nodup : (coreNames ++ infos.map Prod.fst).Nodup) :
    acc.append
        (([("state", Val.tens s), ("action", Val.tens a), ("reward", Val.tens rw),
          ("next_state", Val.tens ns), ("done", Val.tens d)] ++ infos).lookup "state")
        (([("state", Val.tens s), ("action", Val.tens a), ("reward", Val.tens rw),
          ("next_state", Val.tens ns), ("done", Val.tens d)] ++ infos).lookup "action")
        (([("state", Val.tens s), ("action", Val.tens a), ("reward", Val.tens rw),
          ("next_state", Val.tens ns), ("done", Val.tens d)] ++ infos).lookup "reward")
        (([("state", Val.tens s), ("action", Val.tens a), ("reward", Val.tens rw),
          ("next_state", Val.tens ns), ("done", Val.tens d)] ++ infos).lookup "next_state")
        (([("state", Val.tens s), ("action", Val.tens a), ("reward", Val.tens rw),
          ("next_state", Val.tens ns), ("done", Val.tens d)] ++ infos).lookup "done")
        (([("state", Val.tens s), ("action", Val.tens a), ("reward", Val.tens rw),
          ("next_state", Val.tens ns), ("done", Val.tens d)] ++ infos).filter
          (fun p => !(coreNames.contains p.1)))
      = .ok { acc with storage := acc.storage
          ++ [⟨[("state", Val.tens s), ("action", Val.tens a), ("reward", Val.tens rw),
              ("next_state", Val.tens ns), ("done", Val.tens d)] ++ infos, none⟩] } := by
  have h1 : ([("state", Val.tens s), ("action", Val.tens a), ("reward", Val.tens rw),
      ("next_state", Val.tens ns), ("done", Val.tens d)] ++ infos).lookup "state"
      = some (Val.tens s) := by simp [List.lookup]
  have h2 : ([("state", Val.tens s), ("action", Val.tens a), ("reward", Val.tens rw),
      ("next_state", Val.tens ns), ("done", Val.tens d)] ++ infos).lookup "action"
      = some (Val.tens a) := by simp [List.lookup]
  have h3 : ([("state", Val.tens s), ("action", Val.tens a), ("reward", Val.tens rw),
      ("next_state", Val.tens ns), ("done", Val.tens d)] ++ infos).lookup "reward"
      = some (Val.tens rw) := by simp [List.lookup]
  have h4 : ([("state", Val.tens s), ("action", Val.tens a), ("reward", Val.tens rw),
      ("next_state", Val.tens ns), ("done", Val.tens d)] ++ infos).lookup "next_state"
      = some (Val.tens ns) := by simp [List.lookup]
  have h5 : ([("state", Val.tens s), ("action", Val.tens a), ("reward", Val.tens rw),
      ("next_state", Val.tens ns), ("done", Val.tens d)] ++ infos).lookup "done"
      = some (Val.tens d) := by simp [List.lookup]
  have h6 : ([("state", Val.tens s), ("action", Val.tens a), ("reward", Val.tens rw),
      ("next_state", Val.tens ns), ("done", Val.tens d)] ++ infos).filter
      (fun p => !(coreNames.contains p.1)) = infos := by
    rw [List.filter_append]
    have hleft : ([("state", Val.tens s), ("action", Val.tens a), ("reward", Val.tens rw),
        ("next_state", Val.tens ns), ("done", Val.tens d)]).filter
        (fun p => !(coreNames.contains p.1)) = [] := by
      simp [coreNames]
    have hright : infos.filter (fun p => !(coreNames.contains p.1)) = infos := by
      rw [List.filter_eq_self]
      intro p hp
      have := hinfos_core p hp
      simpa [coreNames, List.contains_eq_any_beq] using this
    rw [hleft, hright, List.nil_append]
  rw [h1, h2, h3, h4, h5, h6]
  exact append_tensor_entries acc hv hd s a rw ns d infos hinfos_core hinfos_nodup

theorem flattenOneIdx_ok (acc : ExperienceReplay) (sars : Transition) (E i : Nat)
    (hi : i < E) (hrec : VecRecord sars E)
    (hv : acc.vectorized = false) (hd : acc.device = none) :
    ∃ rec, flattenOneIdx acc sars i = .ok { acc with storage := acc.storage ++ [rec] }
      ∧ ∀ p ∈ rec.fields, ∃ sh dat, p.2 = Val.tens ⟨1 :: sh, dat⟩ := by
  obtain ⟨hWF, hshapes⟩ := hrec
  have hnodup := hWF.2.2.2
  obtain ⟨s, a, rw', ns, d, rest, hf, hrest⟩ := WF_shape hWF
  obtain ⟨shs, dats, hsv⟩ := hshapes ("state", s) (by rw [hf]; simp)
  obtain ⟨sha, data2, hav⟩ := hshapes ("action", a) (by rw [hf]; simp)
  obtain ⟨shr, datr, hrv⟩ := hshapes ("reward", rw') (by rw [hf]; simp)
  obtain ⟨shn, datn, hnv⟩ := hshapes ("next_state", ns) (by rw [hf]; simp)
  obtain ⟨shd, datd, hdv⟩ := hshapes ("done", d) (by rw [hf]; simp)
  simp only at hsv hav hrv hnv hdv
  have hcore2 : ∀ p ∈ rest.map (fun p => ((p : String × Val).1,
      match p.2 with
      | Val.tens t => Val.tens ⟨1 :: t.shape.tail,
          (t.data.drop (i * t.shape.tail.prod)).take t.shape.tail.prod⟩
      | Val.obj o => Val.obj o)), ¬ (p : String × Val).1 ∈ coreNames := by
    intro p hp
    obtain ⟨q, hq, hpq⟩ := List.mem_map.mp hp
    rw [← hpq]
    exact hrest q hq
  have hnodup2 : (coreNames ++ (rest.map (fun p => ((p : String × Val).1,
      match p.2 with
      | Val.tens t => Val.tens ⟨1 :: t.shape.tail,
          (t.data.drop (i * t.shape.tail.prod)).take t.shape.tail.prod⟩
      | Val.obj o => Val.obj o))).map Prod.fst).Nodup := by
    rw [hf] at hnodup
    simpa [coreNames, List.map_map, Function.comp] using hnodup
  refine ⟨⟨[("state", Val.tens ⟨1 :: shs, (dats.drop (i * shs.prod)).take shs.prod⟩),
      ("action", Val.tens ⟨1 :: sha, (data2.drop (i * sha.prod)).take sha.prod⟩),
      ("reward", Val.tens ⟨1 :: shr, (datr.drop (i * shr.prod)).take shr.prod⟩),
      ("next_state", Val.tens ⟨1 :: shn, (datn.drop (i * shn.prod)).take shn.prod⟩),
      ("done", Val.tens ⟨1 :: shd, (datd.drop (i * shd.prod)).take shd.prod⟩)]
      ++ rest.map (fun p => (p.1,
        match p.2 with
        | Val.tens t => Val.tens ⟨1 :: t.shape.tail,
            (t.data.drop (i * t.shape.tail.prod)).take t.shape.tail.prod⟩
        | Val.obj o => Val.obj o)), none⟩, ?_, ?_⟩
  · unfold flattenOneIdx
    rw [flatten_entries_ok sars E i hi hshapes, except_bind_ok, hf]
    simp only [List.map_append, List.map_cons]
    rw [hsv, hav, hrv, hnv, hdv]
    simp only [gmatch_tens, List.tail_cons, List.prod_cons, List.prod_nil]
    have happ := append_from_entries acc hv hd
      ⟨1 :: shs, (dats.drop (i * shs.prod)).take shs.prod⟩
      ⟨1 :: sha, (data2.drop (i * sha.prod)).take sha.prod⟩
      ⟨1 :: shr, (datr.drop (i * shr.prod)).take shr.prod⟩
      ⟨1 :: shn, (datn.drop (i * shn.prod)).take shn.prod⟩
      ⟨1 :: shd, (datd.drop (i * shd.prod)).take shd.prod⟩
      (rest.map (fun p => (p.1,
        match p.2 with
        | Val.tens t => Val.tens ⟨1 :: t.shape.tail,
            (t.data.drop (i * t.shape.tail.prod)).take t.shape.tail.prod⟩
        | Val.obj o => Val.obj o)))
      hcore2 hnodup2
    exact happ
  · intro p hp
    simp only [List.cons_append, List.nil_append, List.mem_cons, List.mem_map] at hp
    rcases hp with h5 | h5 | h5 | h5 | h5 | h5
    · rw [h5]; exact ⟨shs, _, rfl⟩
    · rw [h5]; exact ⟨sha, _, rfl⟩
    · rw [h5]; exact ⟨shr, _, rfl⟩
    · rw [h5]; exact ⟨shn, _, rfl⟩
    · rw [h5]; exact ⟨shd, _, rfl⟩
    · obtain ⟨q, hq, hpq⟩ := h5
      obtain ⟨sh, dat, hq2⟩ := hshapes q (by rw [hf]; simp; tauto)
      refine ⟨sh, (dat.drop (i * sh.prod)).take sh.prod, ?_⟩
      rw [← hpq]
      show (match q.2 with
        | Val.tens t => Val.tens ⟨1 :: t.shape.tail,
            (t.data.drop (i * t.shape.tail.prod)).take t.shape.tail.prod⟩
        | Val.obj o => Val.obj o)
        = Val.tens ⟨1 :: sh, (dat.drop (i * sh.prod)).take sh.prod⟩
      rw [hq2, gmatch_tens]
      simp

theorem flattenOneIdx_fold (sars : Transition) (E : Nat) (hrec : VecRecord sars E) :
    ∀ (l : List Nat) (acc : ExperienceReplay), (∀ i ∈ l, i < E) →
      acc.vectorized = false → acc.device = none →
      ∃ newRecs, (l.foldlM (fun acc2 i => flattenOneIdx acc2 sars i) acc)
          = .ok { acc with storage := acc.storage ++ newRecs }
        ∧ newRecs.length = l.length
        ∧ ∀ t ∈ newRecs, ∀ p ∈ t.fields, ∃ sh dat, p.2 = Val.tens ⟨1 :: sh, dat⟩ := by
  intro l
  induction l with
  | nil =>
    intro acc _ _ _
    refine ⟨[], ?_, rfl, by simp⟩
    simp only [List.foldlM_nil]
    show Except.ok acc = _
    congr 1
    rcases acc with ⟨st, dev, vec⟩
    simp
  | cons i l ih =>
    intro acc hl hv hd
    obtain ⟨rec, hrec1, hrec2⟩ :=
      flattenOneIdx_ok acc sars E i (hl i (by simp)) hrec hv hd
    obtain ⟨newRecs, h1, h2, h3⟩ := ih { acc with storage := acc.storage ++ [rec] }
      (fun j hj => hl j (by simp [hj])) hv hd
    refine ⟨rec :: newRecs, ?_, by simp [h2], ?_⟩
    · rw [List.foldlM_cons, hrec1, except_bind_ok, h1]
      simp
    · intro t ht
      rcases List.mem_cons.mp ht with ht | ht
      · rw [ht]; exact hrec2
      · exact h3 t ht

theorem flattenStep_ok (acc : ExperienceReplay) (sars : Transition) (E : Nat)
    (hrec : VecRecord sars E) (hv : acc.vectorized = false) (hd : acc.device = none) :
    ∃ newRecs, flattenStep acc sars = .ok { acc with storage := acc.storage ++ newRecs }
      ∧ newRecs.length = E
      ∧ ∀ t ∈ newRecs, ∀ p ∈ t.fields, ∃ sh dat, p.2 = Val.tens ⟨1 :: sh, dat⟩ := by
  obtain ⟨hWF, hshapes⟩ := hrec
  obtain ⟨s, a, rw', ns, d, rest, hf, hrest⟩ := WF_shape hWF
  obtain ⟨shd, datd, hdv⟩ := hshapes ("done", d) (by rw [hf]; simp)
  simp only at hdv
  have hlookdone : sars.fields.lookup "done" = some d := by
    rw [hf]
    simp [List.lookup]
  obtain ⟨newRecs, h1, h2, h3⟩ :=
    flattenOneIdx_fold sars E ⟨hWF, hshapes⟩ (List.range E) acc
      (fun i hi => List.mem_range.mp hi) hv hd
  refine ⟨newRecs, ?_, by simp [h2], h3⟩
  unfold flattenStep
  rw [hlookdone, hdv]
  exact h1

theorem flatten_fold (E : Nat) :
    ∀ (l : List Transition) (acc : ExperienceReplay),
      (∀ t ∈ l, VecRecord t E) → acc.vectorized = false → acc.device = none →
      ∃ newRecs, l.foldlM flattenStep acc = .ok { acc with storage := acc.storage ++ newRecs }
        ∧ newRecs.length = E * l.length
        ∧ ∀ t ∈ newRecs, ∀ p ∈ t.fields, ∃ sh dat, p.2 = Val.tens ⟨1 :: sh, dat⟩ := by
  intro l
  induction l with
  | nil =>
    intro acc _ _ _
    refine ⟨[], ?_, by simp, by simp⟩
    simp only [List.foldlM_nil]
    show Except.ok acc = _
    congr 1
    rcases acc with ⟨st, dev, vec⟩
    simp
  | cons sars l ih =>
    intro acc hl hv hd
    obtain ⟨newRecs1, h1, h2, h3⟩ := flattenStep_ok acc sars E (hl sars (by simp)) hv hd
    obtain ⟨newRecs2, h4, h5, h6⟩ := ih { acc with storage := acc.storage ++ newRecs1 }
      (fun t ht => hl t (by simp [ht])) hv hd
    refine ⟨newRecs1 ++ newRecs2, ?_, ?_, ?_⟩
    · rw [List.foldlM_cons, h1, except_bind_ok, h4]
      simp
    · simp [h2, h5, List.length_cons]
      ring
    · intro t ht
      rcases List.mem_append.mp ht with ht | ht
      · exact h3 t ht
      · exact h6 t ht

/-- C8: `flatten` on a non-vectorized buffer returns the same buffer
unchanged; on a vectorized buffer of `T` records each with environment
count `E` (the leading-axis size shared by every field, read off the
`done` field) it returns a fresh non-vectorized buffer of exactly `E * T`
records in which every field of every resulting record carries a
singleton leading axis. -/
theorem flatten_spec :
    (∀ r : ExperienceReplay, r.vectorized = false → r.flatten = .ok r)
      ∧ (∀ (r : ExperienceReplay) (E : Nat), r.vectorized = true →
        (∀ t ∈ r.storage, VecRecord t E) →
        ∃ res, r.flatten = .ok res ∧ res.vectorized = false ∧ res.device = none
          ∧ res.storage.length = E * r.storage.length ∧ SingletonLead res) := by
  constructor
  · intro r h
    unfold ExperienceReplay.flatten
    rw [if_pos h]
  · intro r E hvec hrecs
    obtain ⟨newRecs, h1, h2, h3⟩ :=
      flatten_fold E r.storage ⟨[], none, false⟩ hrecs rfl rfl
    refine ⟨⟨newRecs, none, false⟩, ?_, rfl, rfl, by simpa using h2, ?_⟩
    · unfold ExperienceReplay.flatten
      rw [if_neg (by simp [hvec]), h1]
      simp
    · intro t ht
      exact h3 t ht

theorem flatten_spec_witness :
    rep3.flatten = .ok rep3
      ∧ (∃ res, vrepEx.flatten = .ok res ∧ res.vectorized = false ∧ res.device = none
        ∧ res.storage.length = 2 * vrepEx.storage.length ∧ SingletonLead res) := by
  constructor
  · exact flatten_spec.1 rep3 rfl
  · exact flatten_spec.2 vrepEx 2 rfl (by decide)
